import Mathlib

/-!
A shallow embedding of the evaluation-bot repository (src/database.py,
src/handlers.py, src/scheduler.py) and proofs about its reminder
subsystem.

Modelling conventions:
* The SQL table `evaluations` is a `List Evaluation`; `filter_by(...).first`
  becomes "update/delete the first matching row".
* SQL `DateTime` values are `DateTime` records: a day number (the date
  part, what `func.date` extracts) and an `HH:MM` time-of-day string
  (what `strftime('%H:%M')` formats).  `datetime.utcnow()` at a tick is
  passed in as the `now` argument.
* SQL/Python string comparison is codepoint-lexicographic; core `String`
  order does not kernel-reduce, so `strLt`/`strLe` reimplement it over
  `String.data`.
* Telegram sends are recorded in a `Msg` trace instead of performing IO;
  `bot.send_photo` may raise, which is modelled by a `photoOk` oracle,
  while text sends are modelled as succeeding (the claims under study
  quantify only over photo failures).
* `random.sample(xs, k)` is modelled nondeterministically: theorems
  quantify over every list that is a possible sample (a permutation of a
  k-element subset of `xs`).
-/

namespace EvalBot

/-- Codepoint-lexicographic strict order on char lists, as SQL compares
`TEXT` columns and Python compares `str` values. -/
def strLtAux : List Char → List Char → Bool
  | [], [] => false
  | [], _ :: _ => true
  | _ :: _, [] => false
  | a :: as, b :: bs =>
      decide (a.toNat < b.toNat) || (a.toNat == b.toNat && strLtAux as bs)

/-- `s < t` on strings (used by `Evaluation.reminder_time < current_time_str`). -/
def strLt (s t : String) : Bool := strLtAux s.data t.data

/-- `s <= t` on strings. -/
def strLe (s t : String) : Bool := !(strLt t s)

/-- ASCII lowering of one character (model of `str.lower` for the ASCII
command strings the handlers compare against). -/
def lowerCh (c : Char) : Char :=
  if 65 ≤ c.toNat ∧ c.toNat ≤ 90 then Char.ofNat (c.toNat + 32) else c

/-- Model of `str.lower`. -/
def lowerStr (s : String) : String := String.mk (s.data.map lowerCh)

/-- Two-digit zero-padded decimal rendering, as `strftime` pads `%H`/`%M`. -/
def two (n : Nat) : List Char := [Char.ofNat (48 + n / 10), Char.ofNat (48 + n % 10)]

/-- `time.strftime('%H:%M')`. -/
def fmtHM (h m : Nat) : String := String.mk (two h ++ [':'] ++ two m)

/-- ASCII digit test. -/
def isDigitCh (c : Char) : Bool := decide (48 ≤ c.toNat) && decide (c.toNat ≤ 57)

/-- Reads a non-empty all-digit group as a number. -/
def readDigits (cs : List Char) : Option Nat :=
  if cs.length = 0 then none
  else if cs.all isDigitCh then
    some (cs.foldl (fun a c => 10 * a + (c.toNat - 48)) 0)
  else none

/-- Splits a char list at the first occurrence of `c`; `none` if absent. -/
def splitFirst (c : Char) : List Char → Option (List Char × List Char)
  | [] => none
  | x :: xs =>
      if x = c then some ([], xs)
      else
        match splitFirst c xs with
        | some (l, r) => some (x :: l, r)
        | none => none

/-- Model of `datetime.strptime(input, '%H:%M').time().strftime('%H:%M')`
from `receive_reminder_time`: `%H` and `%M` each match one or two digits
(hour 0-23, minute 0-59), separated by a colon, consuming the whole
(already stripped) input; on success the normalized zero-padded string is
returned. -/
def parseHM (s : String) : Option String :=
  match splitFirst ':' s.data with
  | none => none
  | some (h, m) =>
      match readDigits h, readDigits m with
      | some hv, some mv =>
          if h.length ≤ 2 && m.length ≤ 2 && decide (hv ≤ 23) && decide (mv ≤ 59) then
            some (fmtHM hv mv)
          else none
      | _, _ => none

/-- A point in time: the date part (`func.date`, as an abstract day
number) and the `HH:MM` time-of-day string (`strftime('%H:%M')`). -/
structure DateTime where
  day : Nat
  hm : String
deriving DecidableEq, Repr

/-- Timestamp order, used for the `ORDER BY last_reminder_sent ASC` key. -/
def dtLe (a b : DateTime) : Bool :=
  decide (a.day < b.day) || (a.day == b.day && strLe a.hm b.hm)

/-- A row of the `evaluations` table (class `Evaluation` in
src/database.py); the `EvaluationDTO` carries the same eight fields. -/
structure Evaluation where
  id : Nat
  user_id : Nat
  text_note : Option String
  image_file_id : Option String
  timestamp : DateTime
  reminder_enabled : Bool
  reminder_time : Option String
  last_reminder_sent : Option DateTime
deriving DecidableEq, Repr

/-- SQLite assigns the next rowid: one more than the largest id in the
table (1 on an empty table). -/
def nextId (db : List Evaluation) : Nat :=
  db.foldr (fun e acc => max e.id acc) 0 + 1

/-- `save_evaluation(user_id, text_note, image_file_id)`: inserts a row
with the column defaults (`reminder_enabled=False`, `reminder_time` and
`last_reminder_sent` NULL, `timestamp` = now) and returns its DTO.  The
function performs no validation of `text_note`/`image_file_id`; it only
returns `None` on a database error, which the embedding does not model. -/
def save_evaluation (db : List Evaluation) (user_id : Nat)
    (text_note image_file_id : Option String) (ts : DateTime) :
    List Evaluation × Option Evaluation :=
  let row : Evaluation :=
    { id := nextId db, user_id := user_id, text_note := text_note,
      image_file_id := image_file_id, timestamp := ts,
      reminder_enabled := false, reminder_time := none,
      last_reminder_sent := none }
  (db ++ [row], some row)

/-- `get_evaluation_by_id(evaluation_id, user_id)`: lookup filtered by id
AND owner. -/
def get_evaluation_by_id (db : List Evaluation) (evaluation_id user_id : Nat) :
    Option Evaluation :=
  db.find? (fun e => e.id == evaluation_id && e.user_id == user_id)

/-- The filter of `get_missed_reminders(now)`: reminder enabled,
`reminder_time` non-NULL and strictly before now's time-of-day string,
and not yet sent today (`last_reminder_sent` NULL or its date before
today). -/
def missedPred (now : DateTime) (e : Evaluation) : Bool :=
  e.reminder_enabled &&
  (match e.reminder_time with
   | some rt => strLt rt now.hm
   | none => false) &&
  (match e.last_reminder_sent with
   | none => true
   | some d => decide (d.day < now.day))

/-- `get_missed_reminders(now)`. -/
def get_missed_reminders (db : List Evaluation) (now : DateTime) : List Evaluation :=
  db.filter (missedPred now)

/-- The filter of `get_due_reminders(time_str)`: reminder enabled,
`reminder_time == time_str` (NULL never equals), and `last_reminder_sent`
NULL or dated before today. -/
def duePred (time_str : String) (today : Nat) (e : Evaluation) : Bool :=
  e.reminder_enabled && (e.reminder_time == some time_str) &&
  (match e.last_reminder_sent with
   | none => true
   | some d => decide (d.day < today))

/-- The `ORDER BY last_reminder_sent ASC NULLSFIRST` key order. -/
def sentKeyLe (a b : Evaluation) : Bool :=
  match a.last_reminder_sent, b.last_reminder_sent with
  | none, _ => true
  | some _, none => false
  | some x, some y => dtLe x y

/-- The `ORDER BY` key order as a relation. -/
def sentLE (a b : Evaluation) : Prop := sentKeyLe a b = true

instance : DecidableRel sentLE :=
  fun a b => (inferInstance : Decidable (sentKeyLe a b = true))

/-- `get_due_reminders(time_str)`; `today` is `datetime.utcnow().date()`
taken inside the function.  `ORDER BY` is modelled by sorting the
filtered rows by the `sentLE` key order. -/
def get_due_reminders (db : List Evaluation) (time_str : String) (today : Nat) :
    List Evaluation :=
  List.insertionSort sentLE (db.filter (duePred time_str today))

/-- `delete_evaluation(evaluation_id, user_id)`: deletes the first row
matching id AND owner; returns whether a row was deleted. -/
def delete_evaluation (db : List Evaluation) (evaluation_id user_id : Nat) :
    List Evaluation × Bool :=
  match db with
  | [] => ([], false)
  | e :: rest =>
      if e.id = evaluation_id ∧ e.user_id = user_id then (rest, true)
      else
        let r := delete_evaluation rest evaluation_id user_id
        (e :: r.1, r.2)

/-- `update_evaluation_reminder(evaluation_id, enabled, time=None)`:
looks the row up by id alone (no owner filter); sets
`reminder_enabled := enabled`, `reminder_time := time if enabled else
None`, and clears `last_reminder_sent` when disabling.  Returns `False`
when no row has the id. -/
def update_evaluation_reminder (db : List Evaluation) (evaluation_id : Nat)
    (enabled : Bool) (time : Option String) : List Evaluation × Bool :=
  match db with
  | [] => ([], false)
  | e :: rest =>
      if e.id = evaluation_id then
        ({ e with reminder_enabled := enabled,
                  reminder_time := if enabled then time else none,
                  last_reminder_sent :=
                    if enabled then e.last_reminder_sent else none } :: rest,
         true)
      else
        let r := update_evaluation_reminder rest evaluation_id enabled time
        (e :: r.1, r.2)

/-- `update_last_reminder_sent(evaluation_id)`: stamps the first row with
the given id with `datetime.utcnow()` (passed in as `now`); does nothing
when absent. -/
def update_last_reminder_sent (db : List Evaluation) (evaluation_id : Nat)
    (now : DateTime) : List Evaluation :=
  match db with
  | [] => []
  | e :: rest =>
      if e.id = evaluation_id then
        { e with last_reminder_sent := some now } :: rest
      else e :: update_last_reminder_sent rest evaluation_id now

/-! ## Conversation state machine (src/handlers.py) -/

/-- The conversation states `TEXT_NOTE, IMAGE_NOTE, REMINDER_TIME =
range(3)` plus `ConversationHandler.END`. -/
inductive ConvState where
  | TEXT_NOTE
  | IMAGE_NOTE
  | REMINDER_TIME
  | END
deriving DecidableEq, Repr

/-- `context.user_data`: a dictionary whose keys the handlers read with
`.get`; an absent key and a key set to `None` both read as `none`, so
the dictionary is modelled by the four optional fields the handlers use.
`user_data.clear()` resets all four to `none`; `pop(k, None)` resets
one. -/
structure UserData where
  current_evaluation_text : Option String
  current_evaluation_image_file_id : Option String
  current_evaluation_id_for_reminder : Option Nat
  message_to_edit_id : Option Nat
deriving DecidableEq, Repr

/-- The empty `user_data` dictionary (what `clear()` leaves behind). -/
def emptyUserData : UserData :=
  { current_evaluation_text := none, current_evaluation_image_file_id := none,
    current_evaluation_id_for_reminder := none, message_to_edit_id := none }

/-- Python falsiness of an optional string (`not x`): `None` and the
empty string are falsy. -/
def isFalsy : Option String → Bool
  | none => true
  | some s => s.data.isEmpty

/-- `cancel_command`: replies, then `user_data.clear()` and
`ConversationHandler.END`, from any state. -/
def cancel_command (_ud : UserData) : UserData × ConvState :=
  (emptyUserData, ConvState.END)

/-- `skip_reminder` (`/skip` in the reminder-time state): replies, then
`user_data.clear()` and `END`. -/
def skip_reminder (_ud : UserData) : UserData × ConvState :=
  (emptyUserData, ConvState.END)

/-- `receive_text_note`: stores the text and resets the image reference,
then moves to `IMAGE_NOTE`. -/
def receive_text_note (ud : UserData) (text : String) : UserData × ConvState :=
  ({ ud with current_evaluation_text := some text,
             current_evaluation_image_file_id := none },
   ConvState.IMAGE_NOTE)

/-- An inbound message in the `IMAGE_NOTE` state. -/
inductive TgMessage where
  | photo (fileId : String)
  | text (s : String)
deriving DecidableEq, Repr

/-- `receive_image_note`: a photo overwrites the stored image reference
and stays in `IMAGE_NOTE`; the text `/done` (case-insensitively) either
aborts (when both the stored text and image are falsy — nothing saved,
nothing cleared) or saves the evaluation, records its id in
`current_evaluation_id_for_reminder`, and moves to `REMINDER_TIME` (on a
save failure it clears `user_data` and ends); any other text re-prompts
with no change. -/
def receive_image_note (db : List Evaluation) (ud : UserData) (user_id : Nat)
    (msg : TgMessage) (ts : DateTime) : List Evaluation × UserData × ConvState :=
  match msg with
  | TgMessage.photo fid =>
      (db, { ud with current_evaluation_image_file_id := some fid },
       ConvState.IMAGE_NOTE)
  | TgMessage.text s =>
      if lowerStr s = "/done" then
        let text_note := ud.current_evaluation_text
        let image_file_id := ud.current_evaluation_image_file_id
        if isFalsy text_note && isFalsy image_file_id then
          (db, ud, ConvState.END)
        else
          let r := save_evaluation db user_id text_note image_file_id ts
          match r.2 with
          | some evaluation =>
              (r.1,
               { ud with current_evaluation_id_for_reminder := some evaluation.id },
               ConvState.REMINDER_TIME)
          | none => (r.1, emptyUserData, ConvState.END)
      else (db, ud, ConvState.IMAGE_NOTE)

/-- `receive_reminder_time`: pops `message_to_edit_id` up front; aborts
when no evaluation id is pending; re-asks (same state) on an invalid
`HH:MM`; otherwise calls `update_evaluation_reminder(id, True, time)`,
pops `current_evaluation_id_for_reminder`, and ends.  `input` is the
message text after `.strip()`. -/
def receive_reminder_time (db : List Evaluation) (ud : UserData) (input : String) :
    List Evaluation × UserData × ConvState :=
  let ud1 : UserData := { ud with message_to_edit_id := none }
  match ud.current_evaluation_id_for_reminder with
  | none => (db, ud1, ConvState.END)
  | some evaluation_id =>
      match parseHM input with
      | none => (db, ud1, ConvState.REMINDER_TIME)
      | some reminder_time_str =>
          ((update_evaluation_reminder db evaluation_id true (some reminder_time_str)).1,
           { ud1 with current_evaluation_id_for_reminder := none },
           ConvState.END)

/-! ## Scheduler (src/scheduler.py) -/

/-- One outbound Telegram interaction, recorded instead of performed:
the catch-up header, the tick header, the formatted note body, the
photo, the error log written when a photo send fails, the fallback
notice text, and the `---` separator. -/
inductive Msg where
  | missedHeader (user_id : Nat) (evalId : Nat)
  | header (user_id : Nat)
  | body (user_id : Nat) (evalId : Nat)
  | photo (user_id : Nat) (fileId : String)
  | photoFailLog (evalId : Nat)
  | fallbackNotice (user_id : Nat)
  | separator (user_id : Nat)
deriving DecidableEq, Repr

/-- The per-item loop of `send_missed_reminders`: for each missed
evaluation, send the missed-reminder header, the formatted body, then
the photo if any — a photo failure is caught and only logged — and stamp
`last_reminder_sent`. -/
def deliverMissed (photoOk : Nat → Bool) (now : DateTime) :
    List Evaluation → List Evaluation → List Msg × List Evaluation
  | [], db => ([], db)
  | e :: rest, db =>
      let photoMsgs : List Msg :=
        match e.image_file_id with
        | some fid =>
            if photoOk e.id then [Msg.photo e.user_id fid]
            else [Msg.photoFailLog e.id]
        | none => []
      let r := deliverMissed photoOk now rest (update_last_reminder_sent db e.id now)
      (Msg.missedHeader e.user_id e.id :: Msg.body e.user_id e.id ::
        (photoMsgs ++ r.1), r.2)

/-- `send_missed_reminders(bot)`: queries `get_missed_reminders(now)`
once, then delivers every result (no sampling cap). -/
def send_missed_reminders (photoOk : Nat → Bool) (db : List Evaluation)
    (now : DateTime) : List Msg × List Evaluation :=
  deliverMissed photoOk now (get_missed_reminders db now) db

/-- The per-item loop of `send_reminders`: for each selected evaluation,
send the tick header unless this tick already greeted the owner
(`reminded_users`), then the body, then the photo if any — a photo
failure is caught, logged, and followed by a fallback notice — then the
separator, and stamp `last_reminder_sent`. -/
def deliverDue (photoOk : Nat → Bool) (now : DateTime) :
    List Evaluation → List Nat → List Evaluation → List Msg × List Evaluation
  | [], _, db => ([], db)
  | e :: rest, reminded_users, db =>
      let headerMsgs : List Msg :=
        if e.user_id ∈ reminded_users then [] else [Msg.header e.user_id]
      let reminded1 : List Nat :=
        if e.user_id ∈ reminded_users then reminded_users
        else e.user_id :: reminded_users
      let photoMsgs : List Msg :=
        match e.image_file_id with
        | some fid =>
            if photoOk e.id then [Msg.photo e.user_id fid]
            else [Msg.photoFailLog e.id, Msg.fallbackNotice e.user_id]
        | none => []
      let r := deliverDue photoOk now rest reminded1 (update_last_reminder_sent db e.id now)
      (headerMsgs ++ Msg.body e.user_id e.id :: photoMsgs ++
        Msg.separator e.user_id :: r.1, r.2)

/-- `send_reminders(bot)` at a minute tick: queries
`get_due_reminders(now.hm)`, samples `min(len, 2)` of them
(`random.sample`, modelled by the `selected` argument; theorems quantify
over every possible sample), and delivers the sample with an empty
`reminded_users` set. -/
def send_reminders (photoOk : Nat → Bool) (selected : List Evaluation)
    (db : List Evaluation) (now : DateTime) : List Msg × List Evaluation :=
  deliverDue photoOk now selected [] db

/-- The evaluation ids of the note bodies in a message trace (one entry
per delivered note). -/
def bodyIds (msgs : List Msg) : List Nat :=
  msgs.filterMap (fun m =>
    match m with
    | Msg.body _ i => some i
    | _ => none)

/-- The owners greeted by tick header messages in a trace. -/
def headerUsers (msgs : List Msg) : List Nat :=
  msgs.filterMap (fun m =>
    match m with
    | Msg.header u => some u
    | _ => none)

/-! ## Order lemmas for the `ORDER BY` key -/

lemma strLtAux_asymm (as : List Char) :
    ∀ bs, strLtAux as bs = true → strLtAux bs as = false := by
  induction as with
  | nil =>
      intro bs h
      cases bs with
      | nil => simp [strLtAux] at h
      | cons b bs => simp [strLtAux]
  | cons a as ih =>
      intro bs h
      cases bs with
      | nil => simp [strLtAux] at h
      | cons b bs =>
          simp only [strLtAux, Bool.or_eq_true, Bool.and_eq_true, decide_eq_true_eq,
            beq_iff_eq] at h
          rw [Bool.eq_false_iff]
          intro hc
          simp only [strLtAux, Bool.or_eq_true, Bool.and_eq_true, decide_eq_true_eq,
            beq_iff_eq] at hc
          rcases h with h | ⟨he, hrec⟩ <;> rcases hc with hc | ⟨hce, hcrec⟩
          · omega
          · omega
          · omega
          · exact absurd hcrec (by simp [ih bs hrec])

lemma strLtAux_le_trans (as : List Char) :
    ∀ bs cs, strLtAux bs as = false → strLtAux cs bs = false →
      strLtAux cs as = false := by
  induction as with
  | nil =>
      intro bs cs _ _
      cases cs <;> simp [strLtAux]
  | cons a as ih =>
      intro bs cs h1 h2
      cases bs with
      | nil => simp [strLtAux] at h1
      | cons b bs =>
          cases cs with
          | nil => simp [strLtAux] at h2
          | cons c cs =>
              simp only [strLtAux, Bool.or_eq_false_iff, Bool.and_eq_false_iff,
                decide_eq_false_iff_not, beq_eq_false_iff_ne, ne_eq] at h1 h2
              rw [Bool.eq_false_iff]
              intro hc
              simp only [strLtAux, Bool.or_eq_true, Bool.and_eq_true, decide_eq_true_eq,
                beq_iff_eq] at hc
              rcases h1 with ⟨h1d, h1r⟩
              rcases h2 with ⟨h2d, h2r⟩
              rcases hc with hc | ⟨hce, hcrec⟩
              · omega
              · have hba : b.toNat = a.toNat := by omega
                have hcb : c.toNat = b.toNat := by omega
                rcases h1r with h1r | h1r
                · omega
                · rcases h2r with h2r | h2r
                  · omega
                  · exact absurd hcrec (by simp [ih bs cs h1r h2r])

lemma strLe_total (s t : String) : strLe s t = true ∨ strLe t s = true := by
  unfold strLe
  by_cases h : strLt t s = true
  · right
    have := strLtAux_asymm t.data s.data h
    simp [strLt] at this ⊢
    simp [this]
  · left
    simp [Bool.eq_false_iff.mpr h]

lemma strLe_trans {s t u : String} (h1 : strLe s t = true) (h2 : strLe t u = true) :
    strLe s u = true := by
  unfold strLe at h1 h2 ⊢
  simp only [Bool.not_eq_true'] at h1 h2 ⊢
  exact strLtAux_le_trans s.data t.data u.data h1 h2

lemma dtLe_total (a b : DateTime) : dtLe a b = true ∨ dtLe b a = true := by
  unfold dtLe
  rcases Nat.lt_trichotomy a.day b.day with h | h | h
  · left; simp [h]
  · rcases strLe_total a.hm b.hm with hs | hs
    · left; simp [h, hs]
    · right; simp [h, hs]
  · right; simp [h]

lemma dtLe_trans {a b c : DateTime} (h1 : dtLe a b = true) (h2 : dtLe b c = true) :
    dtLe a c = true := by
  unfold dtLe at h1 h2 ⊢
  simp only [Bool.or_eq_true, Bool.and_eq_true, decide_eq_true_eq, beq_iff_eq] at h1 h2 ⊢
  rcases h1 with h1 | ⟨h1d, h1s⟩ <;> rcases h2 with h2 | ⟨h2d, h2s⟩
  · left; omega
  · left; omega
  · left; omega
  · right; exact ⟨by omega, strLe_trans h1s h2s⟩

lemma sentKeyLe_total (a b : Evaluation) : sentKeyLe a b = true ∨ sentKeyLe b a = true := by
  unfold sentKeyLe
  cases a.last_reminder_sent with
  | none => left; rfl
  | some x =>
      cases b.last_reminder_sent with
      | none => right; rfl
      | some y => exact dtLe_total x y

lemma sentKeyLe_trans {a b c : Evaluation} (h1 : sentKeyLe a b = true)
    (h2 : sentKeyLe b c = true) : sentKeyLe a c = true := by
  unfold sentKeyLe at h1 h2 ⊢
  cases ha : a.last_reminder_sent with
  | none => rfl
  | some x =>
      cases hb : b.last_reminder_sent with
      | none => simp [ha, hb] at h1
      | some y =>
          cases hc : c.last_reminder_sent with
          | none => simp [hb, hc] at h2
          | some z =>
              simp only [ha, hb, hc] at h1 h2 ⊢
              exact dtLe_trans h1 h2

instance : IsTotal Evaluation sentLE := ⟨fun a b => sentKeyLe_total a b⟩

instance : IsTrans Evaluation sentLE := ⟨fun _ _ _ => sentKeyLe_trans⟩

/-! ## How the delivery loops mutate the table -/

/-- The row update performed by `update_last_reminder_sent`. -/
def stamp (now : DateTime) (e : Evaluation) : Evaluation :=
  { e with last_reminder_sent := some now }

/-- Stamp a row exactly when its id occurs in `todo`. -/
def stampIn (now : DateTime) (todo : List Evaluation) (e : Evaluation) : Evaluation :=
  if e.id ∈ todo.map (fun x => x.id) then stamp now e else e

lemma update_last_eq_map {db : List Evaluation}
    (hnd : (db.map (fun e => e.id)).Nodup) (i : Nat) (now : DateTime) :
    update_last_reminder_sent db i now =
      db.map (fun e => if e.id = i then stamp now e else e) := by
  induction db with
  | nil => rfl
  | cons e rest ih =>
      rw [List.map_cons, List.nodup_cons] at hnd
      by_cases h : e.id = i
      · rw [update_last_reminder_sent, if_pos h, List.map_cons, if_pos h]
        have hrest : ∀ x ∈ rest, (if x.id = i then stamp now x else x) = x := by
          intro x hx
          rw [if_neg]
          intro hxi
          apply hnd.1
          have hmem : x.id ∈ rest.map (fun y => y.id) := List.mem_map_of_mem _ hx
          rwa [hxi, ← h] at hmem
        rw [(List.map_congr_left hrest).trans (List.map_id rest)]
        rfl
      · rw [update_last_reminder_sent, if_neg h, List.map_cons, if_neg h, ih hnd.2]

lemma deliverMissed_snd (photoOk : Nat → Bool) (now : DateTime) :
    ∀ (todo db : List Evaluation),
      (deliverMissed photoOk now todo db).2 =
        todo.foldl (fun d e => update_last_reminder_sent d e.id now) db := by
  intro todo
  induction todo with
  | nil => intro db; rfl
  | cons e rest ih => intro db; rw [List.foldl_cons, ← ih]; rfl

lemma deliverDue_snd (photoOk : Nat → Bool) (now : DateTime) :
    ∀ (todo : List Evaluation) (reminded : List Nat) (db : List Evaluation),
      (deliverDue photoOk now todo reminded db).2 =
        todo.foldl (fun d e => update_last_reminder_sent d e.id now) db := by
  intro todo
  induction todo with
  | nil => intro reminded db; rfl
  | cons e rest ih => intro reminded db; rw [List.foldl_cons, ← ih]; rfl

lemma stampIn_preserves_id (now : DateTime) (todo : List Evaluation) (e : Evaluation) :
    (stampIn now todo e).id = e.id := by
  unfold stampIn
  split <;> rfl

lemma map_id_of_map (db : List Evaluation) (f : Evaluation → Evaluation)
    (hf : ∀ e, (f e).id = e.id) :
    (db.map f).map (fun e => e.id) = db.map (fun e => e.id) := by
  rw [List.map_map]
  exact List.map_congr_left (fun e _ => hf e)

lemma foldl_update_eq_map (now : DateTime) :
    ∀ (todo db : List Evaluation), (db.map (fun e => e.id)).Nodup →
      todo.foldl (fun d e => update_last_reminder_sent d e.id now) db =
        db.map (stampIn now todo) := by
  intro todo
  induction todo with
  | nil =>
      intro db _
      have h0 : ∀ e ∈ db, stampIn now [] e = id e := by
        intro e _
        simp [stampIn]
      rw [List.map_congr_left h0, List.map_id]
      rfl
  | cons t rest ih =>
      intro db hnd
      rw [List.foldl_cons, update_last_eq_map hnd]
      have hnd2 : ((db.map (fun e => if e.id = t.id then stamp now e else e)).map
          (fun e => e.id)).Nodup := by
        rw [map_id_of_map db _ (fun e => by split <;> rfl)]
        exact hnd
      rw [ih _ hnd2, List.map_map]
      apply List.map_congr_left
      intro e _
      show stampIn now rest (if e.id = t.id then stamp now e else e) =
        stampIn now (t :: rest) e
      by_cases h : e.id = t.id
      · rw [if_pos h]
        unfold stampIn
        have hid : (stamp now e).id = e.id := rfl
        rw [hid]
        by_cases h2 : e.id ∈ rest.map (fun x => x.id)
        · rw [if_pos h2, if_pos (by simp [h, h2])]
          rfl
        · rw [if_neg h2, if_pos (by simp [h])]
      · rw [if_neg h]
        unfold stampIn
        by_cases h2 : e.id ∈ rest.map (fun x => x.id)
        · rw [if_pos h2, if_pos (by simp [h2])]
        · rw [if_neg h2, if_neg (by simp [h, h2])]

lemma deliverMissed_db (photoOk : Nat → Bool) (now : DateTime)
    (todo db : List Evaluation) (hnd : (db.map (fun e => e.id)).Nodup) :
    (deliverMissed photoOk now todo db).2 = db.map (stampIn now todo) := by
  rw [deliverMissed_snd, foldl_update_eq_map now todo db hnd]

lemma deliverDue_db (photoOk : Nat → Bool) (now : DateTime)
    (todo : List Evaluation) (reminded : List Nat) (db : List Evaluation)
    (hnd : (db.map (fun e => e.id)).Nodup) :
    (deliverDue photoOk now todo reminded db).2 = db.map (stampIn now todo) := by
  rw [deliverDue_snd, foldl_update_eq_map now todo db hnd]

/-! ## What the delivery loops send -/

lemma bodyIds_deliverMissed (photoOk : Nat → Bool) (now : DateTime) :
    ∀ (todo db : List Evaluation),
      bodyIds (deliverMissed photoOk now todo db).1 = todo.map (fun e => e.id) := by
  intro todo
  induction todo with
  | nil => intro db; rfl
  | cons e rest ih =>
      intro db
      simp only [bodyIds] at ih ⊢
      cases him : e.image_file_id with
      | none => simp [deliverMissed, him, ih]
      | some fid =>
          cases hok : photoOk e.id <;>
            simp [deliverMissed, him, hok, ih]

lemma bodyIds_deliverDue (photoOk : Nat → Bool) (now : DateTime) :
    ∀ (todo : List Evaluation) (reminded : List Nat) (db : List Evaluation),
      bodyIds (deliverDue photoOk now todo reminded db).1 =
        todo.map (fun e => e.id) := by
  intro todo
  induction todo with
  | nil => intro reminded db; rfl
  | cons e rest ih =>
      intro reminded db
      simp only [bodyIds] at ih ⊢
      by_cases hu : e.user_id ∈ reminded
      · cases him : e.image_file_id with
        | none => simp [deliverDue, hu, him, ih]
        | some fid =>
            cases hok : photoOk e.id <;>
              simp [deliverDue, hu, him, hok, ih]
      · cases him : e.image_file_id with
        | none => simp [deliverDue, hu, him, ih]
        | some fid =>
            cases hok : photoOk e.id <;>
              simp [deliverDue, hu, him, hok, ih]

lemma headerUsers_deliverDue (photoOk : Nat → Bool) (now : DateTime) :
    ∀ (todo : List Evaluation) (reminded : List Nat) (db : List Evaluation),
      (headerUsers (deliverDue photoOk now todo reminded db).1).Nodup ∧
      ∀ u ∈ headerUsers (deliverDue photoOk now todo reminded db).1, u ∉ reminded := by
  intro todo
  induction todo with
  | nil =>
      intro reminded db
      exact ⟨List.nodup_nil, by intro u hu; simp [deliverDue, headerUsers] at hu⟩
  | cons e rest ih =>
      intro reminded db
      by_cases hu : e.user_id ∈ reminded
      · have hih := ih reminded (update_last_reminder_sent db e.id now)
        have htr : headerUsers (deliverDue photoOk now (e :: rest) reminded db).1 =
            headerUsers (deliverDue photoOk now rest
              (if e.user_id ∈ reminded then reminded else e.user_id :: reminded)
              (update_last_reminder_sent db e.id now)).1 := by
          cases him : e.image_file_id with
          | none => simp [deliverDue, hu, him, headerUsers]
          | some fid =>
              cases hok : photoOk e.id <;>
                simp [deliverDue, hu, him, hok, headerUsers]
        rw [htr, if_pos hu]
        exact hih
      · have hih := ih (e.user_id :: reminded) (update_last_reminder_sent db e.id now)
        have htr : headerUsers (deliverDue photoOk now (e :: rest) reminded db).1 =
            e.user_id :: headerUsers (deliverDue photoOk now rest
              (if e.user_id ∈ reminded then reminded else e.user_id :: reminded)
              (update_last_reminder_sent db e.id now)).1 := by
          cases him : e.image_file_id with
          | none => simp [deliverDue, hu, him, headerUsers]
          | some fid =>
              cases hok : photoOk e.id <;>
                simp [deliverDue, hu, him, hok, headerUsers]
        rw [htr, if_neg hu]
        constructor
        · rw [List.nodup_cons]
          refine ⟨fun hmem => ?_, hih.1⟩
          have := hih.2 _ hmem
          simp at this
        · intro u humem
          rcases List.mem_cons.mp humem with h | h
          · rw [h]; exact hu
          · have := hih.2 _ h
            intro hur
            exact this (List.mem_cons_of_mem _ hur)

lemma no_fallback_deliverMissed (photoOk : Nat → Bool) (now : DateTime) :
    ∀ (todo db : List Evaluation) (u : Nat),
      Msg.fallbackNotice u ∉ (deliverMissed photoOk now todo db).1 := by
  intro todo
  induction todo with
  | nil => intro db u; simp [deliverMissed]
  | cons e rest ih =>
      intro db u
      cases him : e.image_file_id with
      | none => simp [deliverMissed, him, ih]
      | some fid =>
          cases hok : photoOk e.id <;>
            simp [deliverMissed, him, hok, ih]

lemma deliverMissed_tail_mem (photoOk : Nat → Bool) (now : DateTime)
    (t : Evaluation) (rest db : List Evaluation) (x : Msg)
    (hx : x ∈ (deliverMissed photoOk now rest
      (update_last_reminder_sent db t.id now)).1) :
    x ∈ (deliverMissed photoOk now (t :: rest) db).1 := by
  cases him : t.image_file_id with
  | none => simp [deliverMissed, him]; tauto
  | some f2 =>
      cases hok : photoOk t.id <;> (simp [deliverMissed, him, hok]; tauto)

lemma photoFailLog_deliverMissed (photoOk : Nat → Bool) (now : DateTime) :
    ∀ (todo db : List Evaluation) (e : Evaluation) (fid : String), e ∈ todo →
      e.image_file_id = some fid → photoOk e.id = false →
      Msg.photoFailLog e.id ∈ (deliverMissed photoOk now todo db).1 := by
  intro todo
  induction todo with
  | nil => intro db e fid h; simp at h
  | cons t rest ih =>
      intro db e fid hmem himg hfail
      rcases List.mem_cons.mp hmem with h | h
      · subst h
        simp [deliverMissed, himg, hfail]
      · exact deliverMissed_tail_mem photoOk now t rest db _
          (ih (update_last_reminder_sent db t.id now) e fid h himg hfail)

lemma deliverDue_tail_mem (photoOk : Nat → Bool) (now : DateTime)
    (t : Evaluation) (rest : List Evaluation) (reminded : List Nat)
    (db : List Evaluation) (x : Msg)
    (hx : x ∈ (deliverDue photoOk now rest
      (if t.user_id ∈ reminded then reminded else t.user_id :: reminded)
      (update_last_reminder_sent db t.id now)).1) :
    x ∈ (deliverDue photoOk now (t :: rest) reminded db).1 := by
  by_cases hu : t.user_id ∈ reminded
  · rw [if_pos hu] at hx
    cases him : t.image_file_id with
    | none => simp [deliverDue, hu, him]; tauto
    | some f2 =>
        cases hok : photoOk t.id <;> (simp [deliverDue, hu, him, hok]; tauto)
  · rw [if_neg hu] at hx
    cases him : t.image_file_id with
    | none => simp [deliverDue, hu, him]; tauto
    | some f2 =>
        cases hok : photoOk t.id <;> (simp [deliverDue, hu, him, hok]; tauto)

lemma mem_trace_deliverDue (photoOk : Nat → Bool) (now : DateTime) :
    ∀ (todo : List Evaluation) (reminded : List Nat) (db : List Evaluation)
      (e : Evaluation), e ∈ todo →
      Msg.separator e.user_id ∈ (deliverDue photoOk now todo reminded db).1 ∧
      (∀ fid, e.image_file_id = some fid → photoOk e.id = false →
        Msg.photoFailLog e.id ∈ (deliverDue photoOk now todo reminded db).1 ∧
        Msg.fallbackNotice e.user_id ∈ (deliverDue photoOk now todo reminded db).1) := by
  intro todo
  induction todo with
  | nil => intro reminded db e h; simp at h
  | cons t rest ih =>
      intro reminded db e hmem
      rcases List.mem_cons.mp hmem with h | h
      · subst h
        constructor
        · by_cases hu : e.user_id ∈ reminded
          · cases him : e.image_file_id with
            | none => simp [deliverDue, hu, him]
            | some fid =>
                cases hok : photoOk e.id <;> simp [deliverDue, hu, him, hok]
          · cases him : e.image_file_id with
            | none => simp [deliverDue, hu, him]
            | some fid =>
                cases hok : photoOk e.id <;> simp [deliverDue, hu, him, hok]
        · intro fid himg hfail
          by_cases hu : e.user_id ∈ reminded <;>
            constructor <;> simp [deliverDue, hu, himg, hfail]
      · have hih := ih (if t.user_id ∈ reminded then reminded else t.user_id :: reminded)
          (update_last_reminder_sent db t.id now) e h
        refine ⟨deliverDue_tail_mem photoOk now t rest reminded db _ hih.1, ?_⟩
        intro fid himg hfail
        have hx := hih.2 fid himg hfail
        exact ⟨deliverDue_tail_mem photoOk now t rest reminded db _ hx.1,
          deliverDue_tail_mem photoOk now t rest reminded db _ hx.2⟩

/-! ## Query-layer lemmas -/

lemma mem_get_due (x : Evaluation) (db : List Evaluation) (t : String) (today : Nat) :
    x ∈ get_due_reminders db t today ↔ x ∈ db ∧ duePred t today x = true := by
  unfold get_due_reminders
  rw [List.mem_insertionSort, List.mem_filter]

lemma duePred_iff (t : String) (today : Nat) (x : Evaluation) :
    duePred t today x = true ↔
      x.reminder_enabled = true ∧ x.reminder_time = some t ∧
      (x.last_reminder_sent = none ∨
        ∃ d, x.last_reminder_sent = some d ∧ d.day < today) := by
  unfold duePred
  cases h : x.last_reminder_sent with
  | none => simp [h, Bool.and_eq_true, beq_iff_eq]
  | some d =>
      simp [h, Bool.and_eq_true, beq_iff_eq, and_assoc]

lemma missedPred_iff (now : DateTime) (x : Evaluation) :
    missedPred now x = true ↔
      x.reminder_enabled = true ∧
      (∃ rt, x.reminder_time = some rt ∧ strLt rt now.hm = true) ∧
      (x.last_reminder_sent = none ∨
        ∃ d, x.last_reminder_sent = some d ∧ d.day < now.day) := by
  unfold missedPred
  cases hrt : x.reminder_time with
  | none => simp [hrt]
  | some rt =>
      cases h : x.last_reminder_sent with
      | none => simp [hrt, h, Bool.and_eq_true]
      | some d => simp [hrt, h, Bool.and_eq_true, and_assoc]

lemma due_sorted (db : List Evaluation) (t : String) (today : Nat) :
    List.Sorted sentLE (get_due_reminders db t today) :=
  List.sorted_insertionSort sentLE _

lemma get_due_perm (db : List Evaluation) (t : String) (today : Nat) :
    (get_due_reminders db t today).Perm (db.filter (duePred t today)) :=
  List.perm_insertionSort sentLE _

/-! ## Lookup, delete and reminder-update characterizations -/

lemma nodup_id_inj {db : List Evaluation}
    (hnd : (db.map (fun e => e.id)).Nodup) {x y : Evaluation}
    (hx : x ∈ db) (hy : y ∈ db) (h : x.id = y.id) : x = y :=
  List.inj_on_of_nodup_map hnd hx hy h

lemma delete_no_match (eid uid : Nat) :
    ∀ (db : List Evaluation), (∀ e ∈ db, ¬(e.id = eid ∧ e.user_id = uid)) →
      delete_evaluation db eid uid = (db, false) := by
  intro db
  induction db with
  | nil => intro _; rfl
  | cons e rest ih =>
      intro h
      rw [delete_evaluation, if_neg (h e (List.mem_cons_self e rest))]
      have := ih (fun x hx => h x (List.mem_cons_of_mem e hx))
      simp [this]

lemma delete_snd_iff (eid uid : Nat) :
    ∀ (db : List Evaluation),
      ((delete_evaluation db eid uid).2 = true ↔
        ∃ e ∈ db, e.id = eid ∧ e.user_id = uid) := by
  intro db
  induction db with
  | nil => simp [delete_evaluation]
  | cons e rest ih =>
      by_cases h : e.id = eid ∧ e.user_id = uid
      · simp only [delete_evaluation, if_pos h]
        simp [h]
      · simp only [delete_evaluation, if_neg h]
        simp only [List.mem_cons]
        constructor
        · intro hh
          rcases ih.mp hh with ⟨x, hx1, hx2⟩
          exact ⟨x, Or.inr hx1, hx2⟩
        · rintro ⟨x, hx1 | hx1, hx2⟩
          · exact absurd (hx1 ▸ hx2) h
          · exact ih.mpr ⟨x, hx1, hx2⟩

lemma delete_snd_false (eid uid : Nat) :
    ∀ (db : List Evaluation), (delete_evaluation db eid uid).2 = false →
      (delete_evaluation db eid uid).1 = db := by
  intro db
  induction db with
  | nil => intro _; rfl
  | cons e rest ih =>
      by_cases h : e.id = eid ∧ e.user_id = uid
      · simp [delete_evaluation, if_pos h]
      · simp only [delete_evaluation, if_neg h]
        intro hh
        simp [ih hh]

lemma delete_snd_true_length (eid uid : Nat) :
    ∀ (db : List Evaluation), (delete_evaluation db eid uid).2 = true →
      (delete_evaluation db eid uid).1.length + 1 = db.length := by
  intro db
  induction db with
  | nil => intro h; simp [delete_evaluation] at h
  | cons e rest ih =>
      by_cases h : e.id = eid ∧ e.user_id = uid
      · simp [delete_evaluation, if_pos h]
      · simp only [delete_evaluation, if_neg h]
        intro hh
        simp only [List.length_cons]
        rw [← ih hh]

/-- The row update `update_evaluation_reminder` performs on its target. -/
def setReminder (enabled : Bool) (time : Option String) (e : Evaluation) : Evaluation :=
  { e with reminder_enabled := enabled,
           reminder_time := if enabled then time else none,
           last_reminder_sent := if enabled then e.last_reminder_sent else none }

lemma update_reminder_no_match (eid : Nat) (enabled : Bool) (time : Option String) :
    ∀ (db : List Evaluation), (∀ e ∈ db, e.id ≠ eid) →
      update_evaluation_reminder db eid enabled time = (db, false) := by
  intro db
  induction db with
  | nil => intro _; rfl
  | cons e rest ih =>
      intro h
      rw [update_evaluation_reminder, if_neg (h e (List.mem_cons_self e rest))]
      have := ih (fun x hx => h x (List.mem_cons_of_mem e hx))
      simp [this]

lemma update_reminder_found (eid : Nat) (enabled : Bool) (time : Option String) :
    ∀ (db : List Evaluation), (db.map (fun e => e.id)).Nodup →
      (∃ e ∈ db, e.id = eid) →
      update_evaluation_reminder db eid enabled time =
        (db.map (fun e => if e.id = eid then setReminder enabled time e else e),
         true) := by
  intro db
  induction db with
  | nil => rintro _ ⟨e, he, _⟩; simp at he
  | cons e rest ih =>
      rintro hnd ⟨x, hx, hxid⟩
      rw [List.map_cons, List.nodup_cons] at hnd
      by_cases h : e.id = eid
      · rw [update_evaluation_reminder, if_pos h, List.map_cons, if_pos h]
        have hrest : ∀ y ∈ rest, (if y.id = eid then setReminder enabled time y else y) = y := by
          intro y hy
          rw [if_neg]
          intro hyi
          apply hnd.1
          have hmem : y.id ∈ rest.map (fun z => z.id) := List.mem_map_of_mem _ hy
          rwa [hyi, ← h] at hmem
        rw [(List.map_congr_left hrest).trans (List.map_id rest)]
        rfl
      · have hxrest : x ∈ rest := by
          rcases List.mem_cons.mp hx with hh | hh
          · exact absurd (hh ▸ hxid) h
          · exact hh
        rw [update_evaluation_reminder, if_neg h, List.map_cons, if_neg h]
        have := ih hnd.2 ⟨x, hxrest, hxid⟩
        simp [this]

lemma update_reminder_mem (eid : Nat) (enabled : Bool) (time : Option String) :
    ∀ (db : List Evaluation) (x : Evaluation),
      x ∈ (update_evaluation_reminder db eid enabled time).1 →
      x ∈ db ∨ ∃ y ∈ db, x = setReminder enabled time y := by
  intro db
  induction db with
  | nil => intro x hx; simp [update_evaluation_reminder] at hx
  | cons e rest ih =>
      intro x hx
      by_cases h : e.id = eid
      · simp only [update_evaluation_reminder, if_pos h] at hx
        rcases List.mem_cons.mp hx with hh | hh
        · exact Or.inr ⟨e, List.mem_cons_self e rest, hh⟩
        · exact Or.inl (List.mem_cons_of_mem _ hh)
      · simp only [update_evaluation_reminder, if_neg h] at hx
        rcases List.mem_cons.mp hx with hh | hh
        · exact Or.inl (hh ▸ List.mem_cons_self e rest)
        · rcases ih x hh with hd | ⟨y, hy, hxy⟩
          · exact Or.inl (List.mem_cons_of_mem _ hd)
          · exact Or.inr ⟨y, List.mem_cons_of_mem _ hy, hxy⟩

lemma update_last_found (i : Nat) (now : DateTime) :
    ∀ (db : List Evaluation), (db.map (fun e => e.id)).Nodup →
      ∀ e ∈ db, e.id = i →
      ∃ x ∈ update_last_reminder_sent db i now,
        x.id = i ∧ x.last_reminder_sent = some now := by
  intro db hnd e he hei
  rw [update_last_eq_map hnd]
  refine ⟨if e.id = i then stamp now e else e, List.mem_map_of_mem _ he, ?_⟩
  rw [if_pos hei]
  exact ⟨hei ▸ rfl, rfl⟩

/-! ## Sample rows for concrete checks -/

/-- An enabled 07:00 reminder, never sent, no image. -/
def evA : Evaluation :=
  { id := 1, user_id := 10, text_note := some "note a", image_file_id := none,
    timestamp := ⟨0, "00:00"⟩, reminder_enabled := true,
    reminder_time := some "07:00", last_reminder_sent := none }

/-- A note with no reminder configured. -/
def evB : Evaluation :=
  { id := 2, user_id := 20, text_note := some "note b", image_file_id := none,
    timestamp := ⟨0, "00:00"⟩, reminder_enabled := false,
    reminder_time := none, last_reminder_sent := none }

/-- An enabled 06:00 reminder last sent on day 4. -/
def evD : Evaluation :=
  { id := 4, user_id := 40, text_note := some "note d", image_file_id := none,
    timestamp := ⟨0, "00:00"⟩, reminder_enabled := true,
    reminder_time := some "06:00", last_reminder_sent := some ⟨4, "06:00"⟩ }

/-- A note awaiting reminder configuration. -/
def evF : Evaluation :=
  { id := 6, user_id := 60, text_note := some "note f", image_file_id := none,
    timestamp := ⟨0, "00:00"⟩, reminder_enabled := false,
    reminder_time := none, last_reminder_sent := none }

/-- An enabled 08:00 reminder, never sent. -/
def evG : Evaluation :=
  { id := 31, user_id := 91, text_note := some "note g", image_file_id := none,
    timestamp := ⟨0, "00:00"⟩, reminder_enabled := true,
    reminder_time := some "08:00", last_reminder_sent := none }

/-- Another enabled 08:00 reminder, last sent on day 3. -/
def evH : Evaluation :=
  { id := 32, user_id := 92, text_note := some "note h", image_file_id := none,
    timestamp := ⟨0, "00:00"⟩, reminder_enabled := true,
    reminder_time := some "08:00", last_reminder_sent := some ⟨3, "08:00"⟩ }

/-- An enabled 07:00 reminder with an attached image, never sent. -/
def evI : Evaluation :=
  { id := 9, user_id := 90, text_note := some "note i", image_file_id := some "IMG9",
    timestamp := ⟨0, "00:00"⟩, reminder_enabled := true,
    reminder_time := some "07:00", last_reminder_sent := none }

/-! ## Claim theorems -/

/-- C3: for every time-of-day string, `get_due_reminders` returns exactly
the rows with the reminder enabled, `reminder_time` equal to the query
string, and `last_reminder_sent` null or dated before today (so never a
row already sent today), as a permutation of the filtered table, ordered
by `last_reminder_sent` ascending with nulls first. -/
theorem get_due_reminders_spec (db : List Evaluation) (time_str : String) (today : Nat) :
    (∀ x, x ∈ get_due_reminders db time_str today ↔
      x ∈ db ∧ x.reminder_enabled = true ∧ x.reminder_time = some time_str ∧
      (x.last_reminder_sent = none ∨
        ∃ d, x.last_reminder_sent = some d ∧ d.day < today)) ∧
    (get_due_reminders db time_str today).Perm (db.filter (duePred time_str today)) ∧
    List.Sorted sentLE (get_due_reminders db time_str today) := by
  refine ⟨?_, get_due_perm db time_str today, due_sorted db time_str today⟩
  intro x
  rw [mem_get_due, duePred_iff]

/-- C7: deleting a note through another user's id fails and leaves the
note in place; in general `delete_evaluation` returns true exactly when
a row with the given id and owner exists, removes exactly one row in
that case, and leaves the table unchanged otherwise. -/
theorem delete_wrong_owner_spec (db : List Evaluation) (n : Evaluation) (A B : Nat)
    (hnd : (db.map (fun e => e.id)).Nodup) (hn : n ∈ db)
    (hA : n.user_id = A) (hB : B ≠ A) :
    delete_evaluation db n.id B = (db, false) ∧
    n ∈ (delete_evaluation db n.id B).1 ∧
    (∀ eid uid,
      ((delete_evaluation db eid uid).2 = true ↔
        ∃ e ∈ db, e.id = eid ∧ e.user_id = uid) ∧
      ((delete_evaluation db eid uid).2 = false →
        (delete_evaluation db eid uid).1 = db) ∧
      ((delete_evaluation db eid uid).2 = true →
        (delete_evaluation db eid uid).1.length + 1 = db.length)) := by
  have hno : ∀ e ∈ db, ¬(e.id = n.id ∧ e.user_id = B) := by
    rintro e he ⟨h1, h2⟩
    have heq := nodup_id_inj hnd he hn h1
    rw [heq] at h2
    rw [h2] at hA
    exact hB hA
  have hdel := delete_no_match n.id B db hno
  refine ⟨hdel, by rw [hdel]; exact hn, ?_⟩
  intro eid uid
  exact ⟨delete_snd_iff eid uid db, delete_snd_false eid uid db,
    delete_snd_true_length eid uid db⟩

/-- C7 witness: with two rows owned by users 10 and 20, deleting row 1
as user 20 fails and changes nothing. -/
theorem delete_wrong_owner_spec_witness :
    (([evA, evB].map (fun e => e.id)).Nodup ∧ evA ∈ [evA, evB] ∧
      evA.user_id = 10 ∧ (20 : Nat) ≠ 10) ∧
    delete_evaluation [evA, evB] evA.id 20 = ([evA, evB], false) :=
  ⟨⟨by decide, by decide, by decide, by decide⟩,
   (delete_wrong_owner_spec [evA, evB] evA 10 20 (by decide) (by decide)
      (by decide) (by decide)).1⟩

/-- C10: `update_evaluation_reminder` and `update_last_reminder_sent`
take no owner argument and look rows up by id alone, so they succeed on
any existing note whoever owns it, while `get_evaluation_by_id` and
`delete_evaluation` reject a caller who is not the owner. -/
theorem reminder_mutation_no_ownership_check (db : List Evaluation) (e : Evaluation)
    (hnd : (db.map (fun x => x.id)).Nodup) (he : e ∈ db) :
    (∀ enabled time,
      (update_evaluation_reminder db e.id enabled time).2 = true ∧
      ∃ x ∈ (update_evaluation_reminder db e.id enabled time).1,
        x.id = e.id ∧ x.reminder_enabled = enabled ∧
        x.reminder_time = (if enabled then time else none)) ∧
    (∀ now, ∃ x ∈ update_last_reminder_sent db e.id now,
      x.id = e.id ∧ x.last_reminder_sent = some now) ∧
    (∀ u, u ≠ e.user_id →
      get_evaluation_by_id db e.id u = none ∧
      delete_evaluation db e.id u = (db, false)) := by
  refine ⟨?_, ?_, ?_⟩
  · intro enabled time
    have hf := update_reminder_found e.id enabled time db hnd ⟨e, he, rfl⟩
    rw [hf]
    refine ⟨rfl, if e.id = e.id then setReminder enabled time e else e,
      List.mem_map_of_mem _ he, ?_⟩
    rw [if_pos rfl]
    exact ⟨rfl, rfl, rfl⟩
  · intro now
    exact update_last_found e.id now db hnd e he rfl
  · intro u hu
    constructor
    · apply List.find?_eq_none.mpr
      intro x hx hbeq
      rw [Bool.and_eq_true, beq_iff_eq, beq_iff_eq] at hbeq
      have hxe := nodup_id_inj hnd hx he hbeq.1
      rw [hxe] at hbeq
      exact hu hbeq.2.symm
    · apply delete_no_match
      rintro x hx ⟨h1, h2⟩
      have hxe := nodup_id_inj hnd hx he h1
      rw [hxe] at h2
      exact hu h2.symm

/-- C10 witness: row 1 (owner 10) can have its reminder disabled with no
owner argument, while user 20 can neither fetch nor delete it. -/
theorem reminder_mutation_no_ownership_check_witness :
    (([evA, evB].map (fun x => x.id)).Nodup ∧ evA ∈ [evA, evB] ∧ (20 : Nat) ≠ evA.user_id) ∧
    (update_evaluation_reminder [evA, evB] evA.id false none).2 = true ∧
    get_evaluation_by_id [evA, evB] evA.id 20 = none :=
  ⟨⟨by decide, by decide, by decide⟩,
   ((reminder_mutation_no_ownership_check [evA, evB] evA (by decide) (by decide)).1
      false none).1,
   ((reminder_mutation_no_ownership_check [evA, evB] evA (by decide) (by decide)).2.2
      20 (by decide)).1⟩

/-- C2 counterexample: `update_evaluation_reminder(id, enabled=True,
time=None)` succeeds and leaves a row with `reminder_enabled` true and
`reminder_time` null, so the claimed invariant is violated by this
mutation path. -/
theorem reminder_invariant_cex :
    (update_evaluation_reminder [evB] 2 true none).2 = true ∧
    ∃ x ∈ (update_evaluation_reminder [evB] 2 true none).1,
      x.reminder_enabled = true ∧ x.reminder_time = none := by decide

/-- The invariant of claim C2: a row's reminder is enabled exactly when
it has a reminder time. -/
def reminderInv (db : List Evaluation) : Prop :=
  ∀ e ∈ db, (e.reminder_enabled = true ↔ e.reminder_time ≠ none)

/-- C2 amended: the enabled-iff-time invariant is preserved by
`save_evaluation` and by every `update_evaluation_reminder` call that
either disables or enables with a non-null time (which is what all the
repository's call sites do); only the unguarded enabled-with-null-time
call violates it. -/
theorem reminder_invariant_amended (db : List Evaluation) (hinv : reminderInv db) :
    (∀ uid t i ts, reminderInv (save_evaluation db uid t i ts).1) ∧
    (∀ eid t, reminderInv (update_evaluation_reminder db eid false t).1) ∧
    (∀ eid v, reminderInv (update_evaluation_reminder db eid true (some v)).1) := by
  refine ⟨?_, ?_, ?_⟩
  · intro uid t i ts e he
    simp only [save_evaluation] at he
    rcases List.mem_append.mp he with h | h
    · exact hinv e h
    · rw [List.mem_singleton] at h
      subst h
      simp
  · intro eid t e he
    rcases update_reminder_mem eid false t db e he with h | ⟨y, _, hxy⟩
    · exact hinv e h
    · subst hxy
      simp [setReminder]
  · intro eid v e he
    rcases update_reminder_mem eid true (some v) db e he with h | ⟨y, _, hxy⟩
    · exact hinv e h
    · subst hxy
      simp [setReminder]

/-- C2 amended witness: the invariant holds on a sample table and is
preserved by a disable call. -/
theorem reminder_invariant_amended_witness :
    reminderInv [evA, evB] ∧
    reminderInv (update_evaluation_reminder [evA, evB] 1 false none).1 :=
  ⟨by unfold reminderInv; decide,
   (reminder_invariant_amended [evA, evB] (by unfold reminderInv; decide)).2.1 1 none⟩

/-- C4 counterexample: enabling with an absent time succeeds — the call
returns true while storing `reminder_time = None`, so "on enable,
requires a valid time" fails on the code. -/
theorem set_reminder_contract_cex :
    (update_evaluation_reminder [evD] 4 true none).2 = true ∧
    ∃ x ∈ (update_evaluation_reminder [evD] 4 true none).1,
      x.reminder_enabled = true ∧ x.reminder_time = none := by decide

/-- C4 amended: on disable the call clears `reminder_time` and
`last_reminder_sent`; it returns false exactly when no row has the id;
on enable it stores whatever time argument it was given — including an
absent one — without validation, and returns true. -/
theorem set_reminder_contract_amended (db : List Evaluation) (e : Evaluation)
    (hnd : (db.map (fun x => x.id)).Nodup) (he : e ∈ db) :
    (∀ t, (update_evaluation_reminder db e.id false t).2 = true ∧
      ∀ x ∈ (update_evaluation_reminder db e.id false t).1, x.id = e.id →
        x.reminder_enabled = false ∧ x.reminder_time = none ∧
        x.last_reminder_sent = none) ∧
    (∀ eid enabled time, (∀ x ∈ db, x.id ≠ eid) →
      update_evaluation_reminder db eid enabled time = (db, false)) ∧
    (∀ time, (update_evaluation_reminder db e.id true time).2 = true ∧
      ∃ x ∈ (update_evaluation_reminder db e.id true time).1,
        x.id = e.id ∧ x.reminder_time = time) := by
  refine ⟨?_, ?_, ?_⟩
  · intro t
    have hf := update_reminder_found e.id false t db hnd ⟨e, he, rfl⟩
    rw [hf]
    refine ⟨rfl, ?_⟩
    intro x hx hxid
    rcases List.mem_map.mp hx with ⟨y, hy, hxy⟩
    by_cases h : y.id = e.id
    · rw [if_pos h] at hxy
      rw [← hxy]
      exact ⟨rfl, rfl, rfl⟩
    · rw [if_neg h] at hxy
      exact absurd (hxy ▸ hxid) h
  · intro eid enabled time hno
    exact update_reminder_no_match eid enabled time db hno
  · intro time
    have hf := update_reminder_found e.id true time db hnd ⟨e, he, rfl⟩
    rw [hf]
    refine ⟨rfl, if e.id = e.id then setReminder true time e else e,
      List.mem_map_of_mem _ he, ?_⟩
    rw [if_pos rfl]
    exact ⟨rfl, rfl⟩

/-- C4 amended witness: on the sample table, disabling row 4 succeeds
and clears its time and last-sent stamp. -/
theorem set_reminder_contract_amended_witness :
    (([evD].map (fun x => x.id)).Nodup ∧ evD ∈ [evD]) ∧
    (update_evaluation_reminder [evD] evD.id false none).2 = true :=
  ⟨⟨by decide, by decide⟩,
   ((set_reminder_contract_amended [evD] evD (by decide) (by decide)).1 none).1⟩

/-- C5 counterexample: `save_evaluation` called with both `text_note`
and `image_file_id` absent does not fail — it persists a row and returns
its DTO. -/
theorem save_no_content_cex :
    (save_evaluation [] 7 none none ⟨3, "10:00"⟩).2 ≠ none ∧
    (save_evaluation [] 7 none none ⟨3, "10:00"⟩).1 ≠ [] := by decide

/-- C5 amended: the both-fields-absent guard lives in the conversation
handler: on `/done` with both transient fields falsy the dialogue aborts
without touching the store; `save_evaluation` itself persists
unconditionally, assigning the next id and the creation timestamp. -/
theorem save_guard_in_handler (db : List Evaluation) (ud : UserData) (uid : Nat)
    (ts : DateTime) (s : String)
    (hdone : lowerStr s = "/done")
    (htext : isFalsy ud.current_evaluation_text = true)
    (himg : isFalsy ud.current_evaluation_image_file_id = true) :
    receive_image_note db ud uid (TgMessage.text s) ts = (db, ud, ConvState.END) ∧
    (∀ (db2 : List Evaluation) (t i : Option String), ∃ row : Evaluation,
      save_evaluation db2 uid t i ts = (db2 ++ [row], some row) ∧
      row.id = nextId db2 ∧ row.timestamp = ts ∧
      row.text_note = t ∧ row.image_file_id = i ∧
      row.reminder_enabled = false ∧ row.reminder_time = none) := by
  constructor
  · simp [receive_image_note, hdone, htext, himg]
  · intro db2 t i
    exact ⟨_, rfl, rfl, rfl, rfl, rfl, rfl, rfl⟩

/-- C5 amended witness: an empty `/done` (in mixed case) aborts with the
store untouched. -/
theorem save_guard_in_handler_witness :
    lowerStr "/Done" = "/done" ∧
    receive_image_note [] ⟨none, none, none, none⟩ 7 (TgMessage.text "/Done")
      ⟨3, "10:00"⟩ = ([], ⟨none, none, none, none⟩, ConvState.END) :=
  ⟨by decide,
   (save_guard_in_handler [] ⟨none, none, none, none⟩ 7 ⟨3, "10:00"⟩ "/Done"
      (by decide) (by decide) (by decide)).1⟩

/-- C1: a note whose reminder time is strictly before the current
time-of-day and which was not yet sent today is delivered exactly once
by the startup catch-up pass, comes out stamped with
`last_reminder_sent = now`, and is then excluded from
`get_due_reminders` for the rest of the day (the query matches the
time-of-day only by equality and drops rows already sent today), so no
regular minute tick of the same day delivers it again. -/
theorem catchup_exactly_once (photoOk photoOk2 : Nat → Bool) (db : List Evaluation)
    (now : DateTime) (e : Evaluation)
    (hnd : (db.map (fun x => x.id)).Nodup)
    (he : e ∈ db)
    (hen : e.reminder_enabled = true)
    (hrt : ∃ rt, e.reminder_time = some rt ∧ strLt rt now.hm = true)
    (hls : e.last_reminder_sent = none ∨
      ∃ d, e.last_reminder_sent = some d ∧ d.day < now.day) :
    ((bodyIds (send_missed_reminders photoOk db now).1).count e.id = 1) ∧
    (∃ x ∈ (send_missed_reminders photoOk db now).2,
      x.id = e.id ∧ x.last_reminder_sent = some now) ∧
    (∀ t, ∀ x ∈ get_due_reminders (send_missed_reminders photoOk db now).2 t now.day,
      x.id ≠ e.id) ∧
    (∀ t sel, (∀ s ∈ sel,
        s ∈ get_due_reminders (send_missed_reminders photoOk db now).2 t now.day) →
      e.id ∉ bodyIds (send_reminders photoOk2 sel
        (send_missed_reminders photoOk db now).2 ⟨now.day, t⟩).1) := by
  have hpred : missedPred now e = true := (missedPred_iff now e).mpr ⟨hen, hrt, hls⟩
  have hmem : e ∈ get_missed_reminders db now := List.mem_filter.mpr ⟨he, hpred⟩
  have hidsnd : ((get_missed_reminders db now).map (fun x => x.id)).Nodup :=
    List.Nodup.sublist (List.Sublist.map _ (List.filter_sublist db)) hnd
  have hidmem : e.id ∈ (get_missed_reminders db now).map (fun x => x.id) :=
    List.mem_map_of_mem _ hmem
  have hdb2 : (send_missed_reminders photoOk db now).2 =
      db.map (stampIn now (get_missed_reminders db now)) :=
    deliverMissed_db photoOk now _ db hnd
  have hdue : ∀ t, ∀ x ∈ get_due_reminders (send_missed_reminders photoOk db now).2
      t now.day, x.id ≠ e.id := by
    intro t x hx hid
    rw [hdb2] at hx
    rcases (mem_get_due x _ t now.day).mp hx with ⟨hxdb, hxpred⟩
    rcases List.mem_map.mp hxdb with ⟨y, hy, hxy⟩
    have hyid : y.id = e.id := by
      rw [← hid, ← hxy]
      exact (stampIn_preserves_id now _ y).symm
    have hye : y = e := nodup_id_inj hnd hy he hyid
    subst hye
    rw [← hxy] at hxpred
    unfold stampIn at hxpred
    rw [if_pos hidmem] at hxpred
    rcases (duePred_iff t now.day _).mp hxpred with ⟨_, _, hsent | ⟨d, hd, hdlt⟩⟩
    · exact Option.noConfusion hsent
    · have hd2 : some now = some d := hd
      rw [← Option.some.inj hd2] at hdlt
      exact Nat.lt_irrefl _ hdlt
  refine ⟨?_, ?_, hdue, ?_⟩
  · have h1 : (send_missed_reminders photoOk db now).1 =
        (deliverMissed photoOk now (get_missed_reminders db now) db).1 := rfl
    rw [h1, bodyIds_deliverMissed]
    exact List.count_eq_one_of_mem hidsnd hidmem
  · rw [hdb2]
    refine ⟨stampIn now (get_missed_reminders db now) e, List.mem_map_of_mem _ he, ?_⟩
    unfold stampIn
    rw [if_pos hidmem]
    exact ⟨rfl, rfl⟩
  · intro t sel hsel hin
    have h1 : (send_reminders photoOk2 sel (send_missed_reminders photoOk db now).2
        ⟨now.day, t⟩).1 =
        (deliverDue photoOk2 ⟨now.day, t⟩ sel []
          (send_missed_reminders photoOk db now).2).1 := rfl
    rw [h1, bodyIds_deliverDue] at hin
    rcases List.mem_map.mp hin with ⟨s, hs, hsid⟩
    exact hdue t s (hsel s hs) hsid

/-- C1 witness: a 07:00 reminder caught up at 09:00 on day 5 is
delivered exactly once. -/
theorem catchup_exactly_once_witness :
    (([evA].map (fun x => x.id)).Nodup ∧ evA ∈ [evA] ∧
      evA.reminder_enabled = true ∧ strLt "07:00" "09:00" = true) ∧
    (bodyIds (send_missed_reminders (fun _ => true) [evA] ⟨5, "09:00"⟩).1).count evA.id
      = 1 :=
  ⟨⟨by decide, by decide, by decide, by decide⟩,
   (catchup_exactly_once (fun _ => true) (fun _ => true) [evA] ⟨5, "09:00"⟩ evA
      (by decide) (by decide) (by decide) ⟨"07:00", rfl, by decide⟩ (Or.inl rfl)).1⟩

/-- C8: a minute tick delivers exactly the sampled notes — at most 2,
the sample being any permutation of a `min(len, 2)`-element subset of
the due list, which is sorted oldest-unsent-first with nulls first —
sends the tick header at most once per distinct owner, and stamps every
delivered note as sent. -/
theorem send_reminders_batch_spec (photoOk : Nat → Bool) (db : List Evaluation)
    (now : DateTime) (selected : List Evaluation)
    (hnd : (db.map (fun x => x.id)).Nodup)
    (hsub : selected.Subperm (get_due_reminders db now.hm now.day))
    (hlen : selected.length = min (get_due_reminders db now.hm now.day).length 2) :
    bodyIds (send_reminders photoOk selected db now).1 =
      selected.map (fun e => e.id) ∧
    (bodyIds (send_reminders photoOk selected db now).1).length ≤ 2 ∧
    (∀ u, (headerUsers (send_reminders photoOk selected db now).1).count u ≤ 1) ∧
    (∀ s ∈ selected, ∃ x ∈ (send_reminders photoOk selected db now).2,
      x.id = s.id ∧ x.last_reminder_sent = some now) ∧
    List.Sorted sentLE (get_due_reminders db now.hm now.day) := by
  have hbody : bodyIds (send_reminders photoOk selected db now).1 =
      selected.map (fun e => e.id) :=
    bodyIds_deliverDue photoOk now selected [] db
  have hdb2 : (send_reminders photoOk selected db now).2 =
      db.map (stampIn now selected) :=
    deliverDue_db photoOk now selected [] db hnd
  refine ⟨hbody, ?_, ?_, ?_, due_sorted db now.hm now.day⟩
  · rw [hbody, List.length_map, hlen]
    exact Nat.min_le_right _ 2
  · intro u
    have h := headerUsers_deliverDue photoOk now selected [] db
    exact List.nodup_iff_count_le_one.mp h.1 u
  · intro s hs
    have hsdb : s ∈ db := ((mem_get_due s db now.hm now.day).mp (hsub.subset hs)).1
    rw [hdb2]
    refine ⟨stampIn now selected s, List.mem_map_of_mem _ hsdb, ?_⟩
    unfold stampIn
    rw [if_pos (List.mem_map_of_mem _ hs)]
    exact ⟨rfl, rfl⟩

/-- C8 witness: with two due 08:00 reminders the full due list is a
valid sample and at most two bodies are sent. -/
theorem send_reminders_batch_spec_witness :
    (([evG, evH].map (fun x => x.id)).Nodup ∧
      (get_due_reminders [evG, evH] "08:00" 5).length = 2) ∧
    (bodyIds (send_reminders (fun _ => true)
      (get_due_reminders [evG, evH] "08:00" 5) [evG, evH] ⟨5, "08:00"⟩).1).length ≤ 2 :=
  ⟨⟨by decide, by decide⟩,
   (send_reminders_batch_spec (fun _ => true) [evG, evH] ⟨5, "08:00"⟩
      (get_due_reminders [evG, evH] "08:00" 5) (by decide)
      (List.Subperm.refl _) (by decide)).2.1⟩

/-- C9 counterexample: in the startup catch-up path a failed photo send
is only logged — no fallback text notice is sent (the trace is exactly
header, body, photo-failure log) — although the note is still marked as
sent; the claim that every delivery path sends a fallback notice is
false. -/
theorem catchup_no_fallback_cex :
    (send_missed_reminders (fun _ => false) [evI] ⟨5, "09:00"⟩).1 =
      [Msg.missedHeader 90 9, Msg.body 90 9, Msg.photoFailLog 9] ∧
    Msg.fallbackNotice 90 ∉ (send_missed_reminders (fun _ => false) [evI] ⟨5, "09:00"⟩).1 ∧
    (∃ x ∈ (send_missed_reminders (fun _ => false) [evI] ⟨5, "09:00"⟩).2,
      x.id = 9 ∧ x.last_reminder_sent = some ⟨5, "09:00"⟩) := by decide

/-- C9 amended: when a photo send fails, the regular tick logs it, sends
the fallback notice, still sends the separator and stamps the note; the
catch-up pass logs it and stamps the note but never sends a fallback
notice; in both paths the image failure does not prevent marking the
note as sent. -/
theorem image_failure_best_effort (photoOk : Nat → Bool) (now : DateTime)
    (db selected : List Evaluation) (e : Evaluation) (fid : String)
    (hnd : (db.map (fun x => x.id)).Nodup)
    (hmem : e ∈ selected) (hsel : ∀ s ∈ selected, s ∈ db)
    (himg : e.image_file_id = some fid) (hfail : photoOk e.id = false) :
    (Msg.photoFailLog e.id ∈ (send_reminders photoOk selected db now).1 ∧
     Msg.fallbackNotice e.user_id ∈ (send_reminders photoOk selected db now).1 ∧
     Msg.separator e.user_id ∈ (send_reminders photoOk selected db now).1 ∧
     ∃ x ∈ (send_reminders photoOk selected db now).2,
       x.id = e.id ∧ x.last_reminder_sent = some now) ∧
    ((∀ u, Msg.fallbackNotice u ∉ (send_missed_reminders photoOk db now).1) ∧
     (e ∈ get_missed_reminders db now →
       Msg.photoFailLog e.id ∈ (send_missed_reminders photoOk db now).1 ∧
       ∃ x ∈ (send_missed_reminders photoOk db now).2,
         x.id = e.id ∧ x.last_reminder_sent = some now)) := by
  have htr := mem_trace_deliverDue photoOk now selected [] db e hmem
  have hfailmsgs := htr.2 fid himg hfail
  have hdb2 : (send_reminders photoOk selected db now).2 =
      db.map (stampIn now selected) :=
    deliverDue_db photoOk now selected [] db hnd
  constructor
  · refine ⟨hfailmsgs.1, hfailmsgs.2, htr.1, ?_⟩
    rw [hdb2]
    refine ⟨stampIn now selected e, List.mem_map_of_mem _ (hsel e hmem), ?_⟩
    unfold stampIn
    rw [if_pos (List.mem_map_of_mem _ hmem)]
    exact ⟨rfl, rfl⟩
  · refine ⟨fun u => no_fallback_deliverMissed photoOk now _ db u, ?_⟩
    intro hmiss
    refine ⟨photoFailLog_deliverMissed photoOk now _ db e fid hmiss himg hfail, ?_⟩
    have hdbm : (send_missed_reminders photoOk db now).2 =
        db.map (stampIn now (get_missed_reminders db now)) :=
      deliverMissed_db photoOk now _ db hnd
    rw [hdbm]
    refine ⟨stampIn now (get_missed_reminders db now) e,
      List.mem_map_of_mem _ (List.mem_filter.mp hmiss).1, ?_⟩
    unfold stampIn
    rw [if_pos (List.mem_map_of_mem _ hmiss)]
    exact ⟨rfl, rfl⟩

/-- C9 amended witness: at a tick, a failed photo send for row 9 yields
a fallback notice and the row is still stamped. -/
theorem image_failure_best_effort_witness :
    (evI.image_file_id = some "IMG9" ∧ (fun _ => false : Nat → Bool) evI.id = false) ∧
    Msg.fallbackNotice evI.user_id ∈
      (send_reminders (fun _ => false) [evI] [evI] ⟨5, "09:00"⟩).1 :=
  ⟨⟨rfl, rfl⟩,
   ((image_failure_best_effort (fun _ => false) ⟨5, "09:00"⟩ [evI] [evI] evI "IMG9"
      (by decide) (by decide) (fun s hs => hs) rfl rfl).1).2.1⟩

/-- C6 counterexample: a successful reminder setup is a terminal
transition (the conversation ends and the reminder update succeeded)
after which the transient text and image reference are still present in
`user_data`, so the memory is not fully cleared. -/
theorem stale_memory_after_success_cex :
    (receive_reminder_time [evF] ⟨some "Breakout fail", some "IMG1", some 6, none⟩
      "08:30").2.2 = ConvState.END ∧
    (update_evaluation_reminder [evF] 6 true (some "08:30")).2 = true ∧
    (receive_reminder_time [evF] ⟨some "Breakout fail", some "IMG1", some 6, none⟩
      "08:30").2.1.current_evaluation_text = some "Breakout fail" ∧
    (receive_reminder_time [evF] ⟨some "Breakout fail", some "IMG1", some 6, none⟩
      "08:30").2.1.current_evaluation_image_file_id = some "IMG1" := by decide

/-- C6 amended: `/cancel` and `/skip` clear all four transient fields;
the abort on an empty `/done` terminates with `user_data` unchanged
(clearing nothing); a successful reminder setup pops only the pending
note id and the message-to-edit reference, leaving the transient text
and image in place. -/
theorem terminal_transition_memory_amended :
    (∀ ud, cancel_command ud = (emptyUserData, ConvState.END)) ∧
    (∀ ud, skip_reminder ud = (emptyUserData, ConvState.END)) ∧
    (∀ db ud uid ts s, lowerStr s = "/done" →
      isFalsy ud.current_evaluation_text = true →
      isFalsy ud.current_evaluation_image_file_id = true →
      receive_image_note db ud uid (TgMessage.text s) ts = (db, ud, ConvState.END)) ∧
    (∀ db ud input eid tstr,
      ud.current_evaluation_id_for_reminder = some eid →
      parseHM input = some tstr →
      (receive_reminder_time db ud input).2.1 =
        { ud with current_evaluation_id_for_reminder := none,
                  message_to_edit_id := none } ∧
      (receive_reminder_time db ud input).2.2 = ConvState.END) := by
  refine ⟨fun ud => rfl, fun ud => rfl, ?_, ?_⟩
  · intro db ud uid ts s h1 h2 h3
    simp [receive_image_note, h1, h2, h3]
  · intro db ud input eid tstr h1 h2
    simp [receive_reminder_time, h1, h2]

/-- C6 amended witness: a successful setup via "7:5" ends the dialogue,
and `/cancel` resets the dictionary. -/
theorem terminal_transition_memory_amended_witness :
    parseHM "7:5" = some "07:05" ∧
    (receive_reminder_time [evF] ⟨some "t", none, some 6, some 9⟩ "7:5").2.2 =
      ConvState.END ∧
    cancel_command ⟨some "t", some "i", some 1, some 2⟩ =
      (emptyUserData, ConvState.END) :=
  ⟨by decide,
   (terminal_transition_memory_amended.2.2.2 [evF] ⟨some "t", none, some 6, some 9⟩
      "7:5" 6 "07:05" rfl (by decide)).2,
   terminal_transition_memory_amended.1 ⟨some "t", some "i", some 1, some 2⟩⟩

end EvalBot
